import Mathlib

/-!
# URL shortener: validation, shortcut generation and request dispatch

A shallow embedding of `main.go`.

* Go strings are Lean `String`s: the `regexp` package matches over the decoded
  code points of its input, and `[]byte(s)` is the UTF-8 encoding of `s`.
* The three patterns are kept as the source writes them and read by a parser
  of the syntax they use; matching is the search for a match anywhere in the
  text, as `MatchString` does.
* `hash/crc32` works on 32-bit words, held here in `Nat`; the table and the
  update loop are those of `simplePopulateTable` and `simpleUpdate`.
* The redis database is an explicit key-value map passed through the handler.
  What the handler cannot determine comes with each request: the number drawn
  by `rand.Intn` and the failure, if any, of the connection.
* A reply is either the redirect that `http.Redirect` writes, with the
  `Location` header it computes from the target and the request path, or the
  execution of the template on the result record.
-/

namespace UrlShortener

/-! ## Regular expressions (the fragment of Go `regexp` syntax used by the constants) -/

/-- Abstract syntax of the patterns: `^`, `$`, a literal character, a
bracketed class of inclusive ranges, concatenation, alternation and the
counted repetition `r{lo,hi}`. -/
inductive Regex where
  | bol : Regex
  | eol : Regex
  | chr : Char → Regex
  | cls : List (Char × Char) → Regex
  | cat : Regex → Regex → Regex
  | alt : Regex → Regex → Regex
  | rep : Regex → Nat → Nat → Regex
  deriving Repr, DecidableEq

/-- Membership of a character in a bracketed class given by inclusive ranges. -/
def inRanges (rs : List (Char × Char)) (c : Char) : Bool :=
  rs.any (fun r => decide (r.1 ≤ c) && decide (c ≤ r.2))

/-- All remainders left by between `lo` and `hi` successive matches of `f`. -/
def repEnds (f : List Char → List (List Char)) : Nat → Nat → List Char → List (List Char)
  | lo, 0, rest => if lo = 0 then [rest] else []
  | lo, hi + 1, rest =>
      (if lo = 0 then [rest] else []) ++ (f rest).flatMap (repEnds f (lo - 1) hi)

/-- All remainders of the input left after a match of the pattern that starts
at the remainder `rest`; `n` is the length of the whole text, so that `^`
holds exactly where nothing has been consumed and `$` where nothing is left. -/
def ends (n : Nat) : Regex → List Char → List (List Char)
  | .bol, rest => if rest.length = n then [rest] else []
  | .eol, rest => if rest.isEmpty then [rest] else []
  | .chr c, rest =>
      match rest with
      | d :: t => if d = c then [t] else []
      | [] => []
  | .cls rs, rest =>
      match rest with
      | d :: t => if inRanges rs d then [t] else []
      | [] => []
  | .cat a b, rest => (ends n a rest).flatMap (ends n b)
  | .alt a b, rest => ends n a rest ++ ends n b rest
  | .rep r lo hi, rest => repEnds (ends n r) lo hi rest

/-- Go `(*Regexp).MatchString`: the text contains some match of the pattern. -/
def MatchString (re : Regex) (s : String) : Bool :=
  s.data.tails.any (fun t => !(ends s.length re t).isEmpty)

/-! ## Reading a pattern (the fragment of `regexp/syntax` the constants use) -/

/-- The items of a bracketed class up to its closing bracket: single
characters and ranges `lo-hi`. -/
def parseClass : List Char → List (Char × Char) → Option (List (Char × Char) × List Char)
  | [], _ => none
  | ']' :: rest, acc => if acc.isEmpty then none else some (acc.reverse, rest)
  | lo :: '-' :: hi :: rest, acc =>
      if lo = '\\' ∨ lo = '[' ∨ lo = '^' ∨ hi = ']' ∨ hi = '\\' then none
      else parseClass rest ((lo, hi) :: acc)
  | c :: rest, acc =>
      if c = '\\' ∨ c = '[' ∨ c = '^' then none else parseClass rest ((c, c) :: acc)

/-- A run of decimal digits, read as a number. -/
def takeDigits : List Char → Nat → Nat × List Char
  | [], acc => (acc, [])
  | c :: rest, acc =>
      if c.isDigit then takeDigits rest (10 * acc + (c.toNat - '0'.toNat)) else (acc, c :: rest)

/-- The counted repetition `lo,hi}` that follows an opening brace. -/
def parseRepeat (input : List Char) : Option (Nat × Nat × List Char) :=
  match takeDigits input 0 with
  | (lo, ',' :: rest) =>
      match takeDigits rest 0 with
      | (hi, '}' :: rest2) =>
          if input.head?.any Char.isDigit && rest.head?.any Char.isDigit && decide (lo ≤ hi)
          then some (lo, hi, rest2) else none
      | _ => none
  | _ => none

/-- The concatenation of a non-empty sequence of patterns. -/
def catAll : List Regex → Option Regex
  | [] => none
  | [r] => some r
  | r :: rs => (catAll rs).map (Regex.cat r)

/-- The alternation of a non-empty sequence of patterns. -/
def altAll : List Regex → Option Regex
  | [] => none
  | [r] => some r
  | r :: rs => (altAll rs).map (Regex.alt r)

/-- A group being read: its finished alternatives and the items of the
alternative in progress, latest first. -/
structure Frame where
  alts : List Regex
  seq : List Regex

def Frame.push (f : Frame) (r : Regex) : Frame := { f with seq := r :: f.seq }

def Frame.close (f : Frame) : Option Regex :=
  match catAll f.seq.reverse with
  | none => none
  | some r => altAll (r :: f.alts).reverse

/-- One pass over the expression with a stack of open groups; every step
consumes a character, so a fuel above the length of the expression is never
exhausted. Anything outside the fragment is refused. -/
def parseLoop : Nat → List Char → Frame → List Frame → Option Regex
  | 0, _, _, _ => none
  | _ + 1, [], cur, stack =>
      match stack with
      | [] => cur.close
      | _ :: _ => none
  | fuel + 1, c :: rest, cur, stack =>
      if c = '(' then parseLoop fuel rest ⟨[], []⟩ (cur :: stack)
      else if c = ')' then
        match stack, cur.close with
        | parent :: stack1, some r => parseLoop fuel rest (parent.push r) stack1
        | _, _ => none
      else if c = '|' then
        match catAll cur.seq.reverse with
        | some r => parseLoop fuel rest ⟨r :: cur.alts, []⟩ stack
        | none => none
      else if c = '^' then parseLoop fuel rest (cur.push .bol) stack
      else if c = '$' then parseLoop fuel rest (cur.push .eol) stack
      else if c = '[' then
        match parseClass rest [] with
        | some (rs, rest1) => parseLoop fuel rest1 (cur.push (.cls rs)) stack
        | none => none
      else if c = '{' then
        match parseRepeat rest, cur.seq with
        | some (lo, hi, rest1), r :: seq1 =>
            parseLoop fuel rest1 { cur with seq := .rep r lo hi :: seq1 } stack
        | _, _ => none
      else if c = '\\' ∨ c = '.' ∨ c = '*' ∨ c = '+' ∨ c = '?' ∨ c = ']' ∨ c = '}' then none
      else parseLoop fuel rest (cur.push (.chr c)) stack

/-- The function `regexp.Compile` on the fragment. -/
def Compile (expr : String) : Option Regex :=
  parseLoop (expr.length + 1) expr.data ⟨[], []⟩ []

/-- The function `regexp.MustCompile`; where Go panics the result is a pattern
that matches nothing. -/
def MustCompile (expr : String) : Regex :=
  match Compile expr with
  | some re => re
  | none => .cls []

/-! ## The constants -/

def REGEX_URL : String := "^[a-zA-Z0-9_:./]{5,200}$"

def REGEX_PATH : String := "^/[0-9A-Za-z]{2,15}$"

def REGEX_HTTP : String := "(^http://)|(^https://)"

def MAX_RANDOM_NUMBER : Nat := 1000000

def ACTUAL_DOMAIN : String := "localhost:8080"

/-! ## CRC-32 (`hash/crc32`) on 32-bit words held in `Nat` -/

/-- The reversed IEEE polynomial `crc32.IEEE`. -/
def IEEE : Nat := 0xedb88320

/-- One of the eight inner steps of `simplePopulateTable`. -/
def tableStep (poly crc : Nat) : Nat :=
  if crc &&& 1 = 1 then (crc >>> 1) ^^^ poly else crc >>> 1

/-- The table of `crc32.MakeTable`: 256 entries, entry `i` being eight steps from `i`. -/
def MakeTable (poly : Nat) : List Nat :=
  (List.range 256).map (fun i => (tableStep poly)^[8] i)

/-- The function `crc32.Checksum` (`simpleUpdate` from 0): complement, one table
step per byte, complement. -/
def Checksum (data : List Nat) (tab : List Nat) : Nat :=
  (data.foldl (fun crc v => tab.getD ((crc % 256) ^^^ v) 0 ^^^ (crc >>> 8))
    (0 ^^^ 0xffffffff)) ^^^ 0xffffffff

/-- The conversion `[]byte(s)`: the UTF-8 bytes of the string. -/
def bytes (s : String) : List Nat :=
  (s.data.flatMap String.utf8EncodeChar).map UInt8.toNat

/-- The verb `%08x` of `fmt.Sprintf` on an unsigned word: lowercase hexadecimal
digits, padded on the left with zeros up to width 8 (never truncated). -/
def fmt08x (u : Nat) : List Char :=
  let ds := Nat.toDigits 16 u
  List.replicate (8 - ds.length) '0' ++ ds

/-- The function `strconv.Itoa` on a non-negative integer. -/
def Itoa (n : Nat) : String := Nat.repr n

/-! ## The repository object and shortcut creation -/

/-- The fields of `URLRepo` that the handler computes with; the redis
connection is the explicit store state below. -/
structure URLRepo where
  regexUrl : Regex
  regexPath : Regex
  regexHttp : Regex
  crc32Table : List Nat

def NewUrlRepo : URLRepo :=
  { regexUrl := MustCompile REGEX_URL
    regexPath := MustCompile REGEX_PATH
    regexHttp := MustCompile REGEX_HTTP
    crc32Table := MakeTable IEEE }

/-- Shortcut creation; `rnd` is the value drawn by `rand.Intn(MAX_RANDOM_NUMBER)`.
Returns the shortcut and the error (`none` for `nil`). -/
def URLRepo.CreateNewShortcut (r : URLRepo) (rnd : Nat) (url : String) : String × Option String :=
  if MatchString r.regexUrl url then
    let urlRandomized := url ++ Itoa rnd
    (String.mk ('/' :: fmt08x (Checksum (bytes urlRandomized) r.crc32Table)), none)
  else
    ("", some "Invalid url input")

/-! ## The redirect written by `http.Redirect` (`net/http`, `net/url`, `path`) -/

/-- The test `stringContainsCTLByte` of `net/url`. -/
def stringContainsCTLByte (s : List Char) : Bool :=
  s.any (fun c => decide (c.toNat < 0x20) || decide (c.toNat = 0x7f))

/-- The test `ishex` of `net/url`. -/
def ishex (c : Char) : Bool :=
  c.isDigit || (decide ('a' ≤ c) && decide (c ≤ 'f')) || (decide ('A' ≤ c) && decide (c ≤ 'F'))

/-- Whether `unescape` of `net/url` fails, outside the host mode: some `%` is
not followed by two hexadecimal digits. -/
def unescapeFails : List Char → Bool
  | [] => false
  | '%' :: a :: b :: rest => !(ishex a && ishex b) || unescapeFails rest
  | '%' :: _ => true
  | _ :: rest => unescapeFails rest

/-- The test `validUserinfo` of `net/url`. -/
def validUserinfo (s : List Char) : Bool :=
  s.all (fun r => r.isAlpha || r.isDigit ||
    ['-', '.', '_', ':', '~', '!', '$', '&', '\'', '(', ')', '*', '+', ',', ';', '=', '%',
      '@'].contains r)

/-- The loop of `getScheme`; `seen` holds the characters passed, latest first.
The result is `none` for the error "missing protocol scheme", and otherwise
the scheme, possibly empty, with the rest of the text. -/
def getSchemeLoop (rawURL : List Char) : List Char → List Char → Option (List Char × List Char)
  | _, [] => some ([], rawURL)
  | seen, c :: rest =>
      if c.isAlpha then getSchemeLoop rawURL (c :: seen) rest
      else if c.isDigit || c == '+' || c == '-' || c == '.' then
        if seen.isEmpty then some ([], rawURL) else getSchemeLoop rawURL (c :: seen) rest
      else if c == ':' then
        if seen.isEmpty then none else some (seen.reverse, rest)
      else some ([], rawURL)

/-- The function `getScheme` of `net/url`. -/
def getScheme (rawURL : List Char) : Option (List Char × List Char) :=
  getSchemeLoop rawURL [] rawURL

/-- Whether `parseAuthority` succeeds with an empty host. A non-empty host
text gives an error or a non-empty host; an empty one gives the empty host
when the user information before the `@`, if any, is valid. -/
def authorityWithoutHost (authority : List Char) : Bool :=
  let host := (authority.reverse.takeWhile (fun c => c != '@')).reverse
  if !host.isEmpty then false
  else if authority.isEmpty then true
  else
    let userinfo := authority.dropLast
    validUserinfo userinfo &&
      (if userinfo.contains ':' then
        !unescapeFails (userinfo.takeWhile (fun c => c != ':')) &&
          !unescapeFails ((userinfo.dropWhile (fun c => c != ':')).drop 1)
      else !unescapeFails userinfo)

/-- The part of `parse` after an empty scheme, on the text before the query:
whether it succeeds with an empty host. -/
def parseRestRelative (rest : List Char) : Bool :=
  if rest.head? != some '/' && (rest.takeWhile (fun c => c != '/')).contains ':' then false
  else if "//".data.isPrefixOf rest && !"///".data.isPrefixOf rest then
    authorityWithoutHost ((rest.drop 2).takeWhile (fun c => c != '/')) &&
      !unescapeFails ((rest.drop 2).dropWhile (fun c => c != '/'))
  else !unescapeFails rest

/-- What `http.Redirect` asks of `url.Parse`: whether the text parses without
error to a reference whose scheme and host are both empty. -/
def parsesRelative (rawURL : List Char) : Bool :=
  let u := rawURL.takeWhile (fun c => c != '#')
  let frag := (rawURL.dropWhile (fun c => c != '#')).drop 1
  if stringContainsCTLByte u then false
  else if u = ['*'] then !unescapeFails frag
  else
    match getScheme u with
    | none => false
    | some (scheme, rest) =>
        scheme.isEmpty && parseRestRelative (rest.takeWhile (fun c => c != '?')) &&
          !unescapeFails frag

/-- The directory part of `path.Split`: the text up to its last slash, included. -/
def splitDir (p : List Char) : List Char :=
  (p.reverse.dropWhile (fun c => c != '/')).reverse

/-- The elements of a path between its slashes. -/
def pathElements : List Char → List (List Char)
  | [] => [[]]
  | c :: rest =>
      if c = '/' then [] :: pathElements rest
      else
        match pathElements rest with
        | e :: es => (c :: e) :: es
        | [] => [[c]]

/-- The elements `path.Clean` keeps, latest first: empty elements and `.` are
dropped, `..` removes the element before it, or is kept at the head of a path
that is not rooted. -/
def cleanElements (rooted : Bool) : List (List Char) → List (List Char) → List (List Char)
  | kept, [] => kept
  | kept, e :: es =>
      if e = [] ∨ e = ['.'] then cleanElements rooted kept es
      else if e = ['.', '.'] then
        match kept with
        | top :: below =>
            if top = ['.', '.'] then cleanElements rooted (e :: kept) es
            else cleanElements rooted below es
        | [] => if rooted then cleanElements rooted [] es else cleanElements rooted [e] es
      else cleanElements rooted (e :: kept) es

/-- The function `path.Clean`. -/
def pathClean (p : List Char) : List Char :=
  if p = [] then ['.']
  else
    let rooted := p.head? == some '/'
    let kept := (cleanElements rooted [] (pathElements p)).reverse
    if rooted then '/' :: ['/'].intercalate kept
    else if kept = [] then ['.'] else ['/'].intercalate kept

/-- The function `hexEscapeNonASCII` of `net/http`: every byte from `0x80` up
is written as `%` and its two hexadecimal digits. -/
def hexEscapeNonASCII (s : List Char) : List Char :=
  s.flatMap (fun c =>
    if c.toNat < 0x80 then [c]
    else (String.utf8EncodeChar c).flatMap (fun b => '%' :: Nat.toDigits 16 b.toNat))

/-- The `Location` header set by `http.Redirect(w, req, url, code)` for a
request with path `oldpath`: a target that parses to a reference without
scheme and host is made an absolute path, relative to the directory of the
request path, and cleaned; every target is then escaped. -/
def Redirect (oldpath url : String) : String :=
  let target :=
    if parsesRelative url.data then
      let oldpath := if oldpath.data = [] then ['/'] else oldpath.data
      let url := if url.data.head? != some '/' then splitDir oldpath ++ url.data else url.data
      let path := url.takeWhile (fun c => c != '?')
      let query := url.dropWhile (fun c => c != '?')
      let cleaned := pathClean path
      let cleaned :=
        if path.getLast? == some '/' && cleaned.getLast? != some '/' then cleaned ++ ['/']
        else cleaned
      cleaned ++ query
    else url.data
  String.mk (hexEscapeNonASCII target)

/-! ## The request handler over an explicit store -/

/-- Contents of the redis database: a key-value map. -/
abbrev Store := String → Option String

/-- The empty database. -/
def Store.empty : Store := fun _ => none

/-- What a request meets outside the handler: the value drawn by `rand.Intn`,
the state of the connection (`some e`: a redis command fails with `e`) and
whether a write reported as failed has reached the database all the same. -/
structure Env where
  rnd : Nat
  fault : Option String
  landed : Bool

/-- The parts of `http.Request` read by the handler. -/
structure Request where
  Method : String
  Path : String
  Form : List (String × String)

/-- The method `req.FormValue`: the first value of the field, the empty string
when absent. -/
def Request.FormValue (req : Request) (key : String) : String :=
  match req.Form.find? (fun kv => kv.1 == key) with
  | some kv => kv.2
  | none => ""

structure ShortcutInfoTpl where
  NewShortcut : String := ""
  Err : Option String := none
  deriving DecidableEq, Repr

/-- A command sent to redis. -/
inductive StoreOp where
  | get (key : String)
  | set (key value : String)
  deriving DecidableEq, Repr

/-- The answer written to the client: the redirect written by `http.Redirect`,
with its `Location` header and status code, or the execution of the homepage
template on the result. -/
inductive Reply where
  | redirect (location : String) (code : Nat)
  | render (name : String) (info : ShortcutInfoTpl)
  deriving DecidableEq, Repr

def StatusMovedPermanently : Nat := 301

def MethodPost : String := "POST"

/-- The call `Conn.Set(ctx, key, value, 0).Err()`: an unconditional write without
expiry. A command that fails leaves the store as it was, unless it `landed`. -/
def Conn.Set (fault : Option String) (landed : Bool) (store : Store) (key value : String) :
    Store × Option String :=
  match fault with
  | some e => (if landed then fun k => if k = key then some value else store k else store, some e)
  | none => (fun k => if k = key then some value else store k, none)

/-- The call `Conn.Get(ctx, key).Result()`: fails when the connection does or the key
is absent (`redis.Nil`). -/
def Conn.Get (fault : Option String) (store : Store) (key : String) : Except String String :=
  match fault with
  | some e => .error e
  | none =>
      match store key with
      | some v => .ok v
      | none => .error "redis: nil"

/-- Everything one request does: the reply, the store afterwards and the
redis commands issued, in order. -/
structure Outcome where
  reply : Reply
  store : Store
  ops : List StoreOp

def URLRepo.HomepageHandler (r : URLRepo) (env : Env) (store : Store) (req : Request) :
    Outcome :=
  let infoTpl : ShortcutInfoTpl := {}
  if req.Path = "/" then
    if req.Method = MethodPost then
      let url := req.FormValue "url"
      match r.CreateNewShortcut env.rnd url with
      | (_, some err) =>
          ⟨.render "homepage.gohtml" { infoTpl with Err := some err }, store, []⟩
      | (shortcut, none) =>
          let url := if !MatchString r.regexHttp url then "http://" ++ url else url
          match Conn.Set env.fault env.landed store shortcut url with
          | (store', some err) =>
              ⟨.render "homepage.gohtml" { infoTpl with Err := some err }, store',
                [.set shortcut url]⟩
          | (store', none) =>
              ⟨.render "homepage.gohtml" { infoTpl with NewShortcut := ACTUAL_DOMAIN ++ shortcut },
                store', [.set shortcut url]⟩
    else
      ⟨.render "homepage.gohtml" infoTpl, store, []⟩
  else
    if MatchString r.regexPath req.Path then
      match Conn.Get env.fault store req.Path with
      | .error _ =>
          ⟨.render "homepage.gohtml" { infoTpl with Err := some "Shortcut not found" }, store,
            [.get req.Path]⟩
      | .ok result =>
          ⟨.redirect (Redirect req.Path result) StatusMovedPermanently, store, [.get req.Path]⟩
    else
      ⟨.render "homepage.gohtml" { infoTpl with Err := some "Url bad formatted" }, store, []⟩

/-- The store after a sequence of requests, each with its environment. -/
def run (r : URLRepo) (store : Store) : List (Env × Request) → Store
  | [] => store
  | (env, req) :: rest => run r (r.HomepageHandler env store req).store rest

/-! ## The vocabulary of the specification -/

/-- The lowercase hexadecimal digits. -/
def hexChars : List Char :=
  ['0', '1', '2', '3', '4', '5', '6', '7', '8', '9', 'a', 'b', 'c', 'd', 'e', 'f']

/-- The characters admitted in a submitted URL: ASCII letters, ASCII digits
and the four signs `_`, `:`, `.`, `/`. -/
def urlChar (c : Char) : Prop :=
  c.isAlpha = true ∨ c.isDigit = true ∨ c = '_' ∨ c = ':' ∨ c = '.' ∨ c = '/'

instance (c : Char) : Decidable (urlChar c) := by unfold urlChar; infer_instance

/-- The specification of `ValidateURL`: 5 to 200 characters, all admitted. -/
def SpecValidateURL (s : String) : Prop :=
  5 ≤ s.length ∧ s.length ≤ 200 ∧ ∀ c ∈ s.data, urlChar c

instance (s : String) : Decidable (SpecValidateURL s) := by
  unfold SpecValidateURL; infer_instance

/-- The specification of `ValidatePath`: a slash followed by 2 to 15 ASCII
letters or digits. -/
def SpecValidatePath (p : String) : Prop :=
  match p.data with
  | '/' :: t => 2 ≤ t.length ∧ t.length ≤ 15 ∧ ∀ c ∈ t, c.isAlpha = true ∨ c.isDigit = true
  | _ => False

instance (p : String) : Decidable (SpecValidatePath p) := by
  unfold SpecValidatePath; split <;> infer_instance

/-- The specification of `HasScheme`: the string starts with `http://` or
with `https://`. -/
def SpecHasScheme (s : String) : Prop :=
  "http://".data <+: s.data ∨ "https://".data <+: s.data

instance (s : String) : Decidable (SpecHasScheme s) := by
  unfold SpecHasScheme; infer_instance

/-- The value stored for a submitted URL: the URL itself when it has a scheme,
`http://` followed by it otherwise. -/
def storedValue (url : String) : String :=
  if SpecHasScheme url then url else "http://" ++ url

/-- The shape of a short code: a slash followed by exactly eight lowercase
hexadecimal digits. -/
def IsShortCode (k : String) : Prop :=
  match k.data with
  | '/' :: ds => ds.length = 8 ∧ ∀ c ∈ ds, c ∈ hexChars
  | _ => False

instance (k : String) : Decidable (IsShortCode k) := by
  unfold IsShortCode; split <;> infer_instance


/-- One bit of the bit-serial CRC-32: the register is shifted right, and the
reflected polynomial `0xedb88320` is added when the bit shifted out is set. -/
def specCrcBit (crc : Nat) : Nat :=
  if crc % 2 = 1 then (crc / 2) ^^^ 0xedb88320 else crc / 2

/-- One byte of the bit-serial CRC-32: the byte is added to the low end of the
register and eight bits are shifted out. -/
def specCrcByte (crc b : Nat) : Nat := specCrcBit^[8] (crc ^^^ b)

/-- The specification of CRC-32 (IEEE 802.3): the register starts with all
ones, takes the bytes in order and is complemented at the end. -/
def SpecCrc32 (data : List Nat) : Nat :=
  (data.foldl specCrcByte 0xffffffff) ^^^ 0xffffffff

/-- The decimal numeral of a number as ASCII codes, most significant digit first. -/
def SpecDecimal (n : Nat) : List Nat :=
  if n = 0 then [48] else (Nat.digits 10 n).reverse.map (fun d => d + 48)

/-- The value of a hexadecimal digit, `0`-`9` or `a`-`f`. -/
def hexDigitValue (c : Char) : Nat :=
  if c.isDigit then c.toNat - 48 else c.toNat - 87

/-- The number a string of hexadecimal digits denotes, most significant digit first. -/
def hexValue (ds : List Char) : Nat :=
  ds.foldl (fun acc c => 16 * acc + hexDigitValue c) 0

/-- The request rebinds the key `k`: it is a submission of a valid URL whose
generated shortcut is `k` and whose write reaches the database, the command
succeeding or failing after it landed. -/
def Overwrites (env : Env) (req : Request) (k : String) : Prop :=
  req.Path = "/" ∧ req.Method = "POST" ∧
    MatchString NewUrlRepo.regexUrl (req.FormValue "url") = true ∧
    (env.fault = none ∨ env.landed = true) ∧
    k = (NewUrlRepo.CreateNewShortcut env.rnd (req.FormValue "url")).1

instance (env : Env) (req : Request) (k : String) : Decidable (Overwrites env req k) := by
  unfold Overwrites; infer_instance

/-! ## Characters and classes -/

theorem char_le_iff (a b : Char) : a ≤ b ↔ a.toNat ≤ b.toNat := Iff.rfl

theorem char_eq_iff (a b : Char) : a = b ↔ a.toNat = b.toNat := by
  constructor
  · intro h; rw [h]
  · intro h
    apply Char.ext
    exact UInt32.toNat.inj h

theorem u32_ge_iff (c : Char) (k : UInt32) : c.val ≥ k ↔ k.toNat ≤ c.toNat := Iff.rfl

theorem u32_le_iff (c : Char) (k : UInt32) : c.val ≤ k ↔ c.toNat ≤ k.toNat := Iff.rfl

theorem isDigit_iff (c : Char) : c.isDigit = true ↔ 48 ≤ c.toNat ∧ c.toNat ≤ 57 := by
  simp only [Char.isDigit, Bool.and_eq_true, decide_eq_true_eq, u32_ge_iff, u32_le_iff]
  exact Iff.rfl

theorem isAlpha_iff (c : Char) : c.isAlpha = true ↔
    (65 ≤ c.toNat ∧ c.toNat ≤ 90) ∨ (97 ≤ c.toNat ∧ c.toNat ≤ 122) := by
  simp only [Char.isAlpha, Char.isUpper, Char.isLower, Bool.or_eq_true, Bool.and_eq_true,
    decide_eq_true_eq, u32_ge_iff, u32_le_iff]
  exact Iff.rfl

theorem inRanges_urlClass (c : Char) :
    inRanges [('a', 'z'), ('A', 'Z'), ('0', '9'), ('_', '_'), (':', ':'), ('.', '.'),
      ('/', '/')] c = true ↔ urlChar c := by
  simp only [inRanges, urlChar, List.any_cons, List.any_nil, Bool.or_eq_true,
    Bool.and_eq_true, decide_eq_true_eq, Bool.or_false, char_le_iff, char_eq_iff, isDigit_iff,
    isAlpha_iff]
  have h0 : '0'.toNat = 48 := rfl
  have h9 : '9'.toNat = 57 := rfl
  have hA : 'A'.toNat = 65 := rfl
  have hZ : 'Z'.toNat = 90 := rfl
  have ha : 'a'.toNat = 97 := rfl
  have hz : 'z'.toNat = 122 := rfl
  have h1 : '_'.toNat = 95 := rfl
  have h2 : ':'.toNat = 58 := rfl
  have h3 : '.'.toNat = 46 := rfl
  have h4 : '/'.toNat = 47 := rfl
  rw [h0, h9, hA, hZ, ha, hz, h1, h2, h3, h4]
  omega

theorem inRanges_pathClass (c : Char) :
    inRanges [('0', '9'), ('A', 'Z'), ('a', 'z')] c = true ↔
      (c.isAlpha = true ∨ c.isDigit = true) := by
  simp only [inRanges, List.any_cons, List.any_nil, Bool.or_eq_true,
    Bool.and_eq_true, decide_eq_true_eq, Bool.or_false, char_le_iff, isDigit_iff, isAlpha_iff]
  have h0 : '0'.toNat = 48 := rfl
  have h9 : '9'.toNat = 57 := rfl
  have hA : 'A'.toNat = 65 := rfl
  have hZ : 'Z'.toNat = 90 := rfl
  have ha : 'a'.toNat = 97 := rfl
  have hz : 'z'.toNat = 122 := rfl
  rw [h0, h9, hA, hZ, ha, hz]
  omega

/-! ## The matcher on the shapes of the three patterns -/

theorem mem_ends_eol (n : Nat) (t rest : List Char) :
    t ∈ ends n .eol rest ↔ rest = [] ∧ t = [] := by
  cases rest <;> simp [ends]

theorem ends_cls_nil (n : Nat) (rs : List (Char × Char)) : ends n (.cls rs) [] = [] := rfl

theorem ends_cls_cons (n : Nat) (rs : List (Char × Char)) (d : Char) (t : List Char) :
    ends n (.cls rs) (d :: t) = if inRanges rs d = true then [t] else [] := rfl

theorem nil_mem_repEnds_cls (n : Nat) (rs : List (Char × Char)) :
    ∀ (hi lo : Nat) (rest : List Char),
      [] ∈ repEnds (ends n (.cls rs)) lo hi rest ↔
        lo ≤ rest.length ∧ rest.length ≤ hi ∧ ∀ c ∈ rest, inRanges rs c = true := by
  intro hi
  induction hi with
  | zero =>
      intro lo rest
      cases rest with
      | nil => by_cases h : lo = 0 <;> simp [repEnds, h]
      | cons d tl => by_cases h : lo = 0 <;> simp [repEnds, h]
  | succ hi ih =>
      intro lo rest
      cases rest with
      | nil => by_cases h : lo = 0 <;> simp [repEnds, ends_cls_nil, h]
      | cons d tl =>
          have ih1 := ih (lo - 1) tl
          by_cases hd : inRanges rs d = true
          · by_cases h : lo = 0
            · subst h
              simp only [repEnds, ends_cls_cons, hd, if_true, List.flatMap_cons,
                List.flatMap_nil, List.append_nil, List.mem_append, List.mem_singleton,
                List.length_cons, List.mem_cons, forall_eq_or_imp, ih1]
              simp
            · simp only [repEnds, ends_cls_cons, hd, h, if_true, if_false, List.flatMap_cons,
                List.flatMap_nil, List.append_nil, List.nil_append,
                List.length_cons, List.mem_cons, forall_eq_or_imp, ih1]
              constructor
              · rintro ⟨h1, h2, h3⟩
                exact ⟨by omega, by omega, trivial, h3⟩
              · rintro ⟨h1, h2, _, h3⟩
                exact ⟨by omega, by omega, h3⟩
          · by_cases h : lo = 0 <;> simp [repEnds, ends_cls_cons, hd, h]

/-- A pattern `^r` can only match from the start of the text. -/
theorem matchString_bol (r : Regex) (s : String) :
    MatchString (.cat .bol r) s = true ↔ ∃ t, t ∈ ends s.length r s.data := by
  simp only [MatchString, List.any_eq_true, List.mem_tails, Bool.not_eq_true',
    List.isEmpty_eq_false, ends]
  constructor
  · rintro ⟨x, hx, hne⟩
    by_cases hl : x.length = s.length
    · have hxs : x = s.data := hx.eq_of_length hl
      subst hxs
      simp only [hl, if_true, List.flatMap_cons, List.flatMap_nil, List.append_nil] at hne
      exact List.exists_mem_of_ne_nil _ hne
    · simp [hl] at hne
  · rintro ⟨t, ht⟩
    refine ⟨s.data, List.suffix_refl _, ?_⟩
    have hl : s.data.length = s.length := rfl
    simp only [hl, if_true, List.flatMap_cons, List.flatMap_nil, List.append_nil]
    exact List.ne_nil_of_mem ht


theorem mem_ends_cat (n : Nat) (a b : Regex) (t rest : List Char) :
    t ∈ ends n (.cat a b) rest ↔ ∃ m, m ∈ ends n a rest ∧ t ∈ ends n b m := by
  simp [ends, List.mem_flatMap]

theorem mem_ends_chr (n : Nat) (c : Char) (t rest : List Char) :
    t ∈ ends n (.chr c) rest ↔ rest = c :: t := by
  cases rest with
  | nil => simp [ends]
  | cons d tl =>
      by_cases h : d = c
      · simp [ends, h, eq_comm]
      · simp [ends, h]

theorem exists_mem_ends_cat_eol (n : Nat) (r : Regex) (rest : List Char) :
    (∃ t, t ∈ ends n (.cat r .eol) rest) ↔ [] ∈ ends n r rest := by
  simp only [mem_ends_cat, mem_ends_eol]
  constructor
  · rintro ⟨t, m, hm, rfl, rfl⟩
    exact hm
  · intro h
    exact ⟨[], [], h, rfl, rfl⟩

theorem matchString_alt (a b : Regex) (s : String) :
    MatchString (.alt a b) s = true ↔ MatchString a s = true ∨ MatchString b s = true := by
  simp only [MatchString, List.any_eq_true, Bool.not_eq_true', List.isEmpty_eq_false, ends,
    ne_eq, List.append_eq_nil, not_and_or]
  constructor
  · rintro ⟨x, hx, h | h⟩
    · exact Or.inl ⟨x, hx, h⟩
    · exact Or.inr ⟨x, hx, h⟩
  · rintro (⟨x, hx, h⟩ | ⟨x, hx, h⟩)
    · exact ⟨x, hx, Or.inl h⟩
    · exact ⟨x, hx, Or.inr h⟩

/-- The three constants parse, to these syntax trees. -/
theorem regexUrl_eq : NewUrlRepo.regexUrl =
    .cat .bol (.cat (.rep (.cls [('a', 'z'), ('A', 'Z'), ('0', '9'), ('_', '_'), (':', ':'),
      ('.', '.'), ('/', '/')]) 5 200) .eol) := by
  decide

theorem regexPath_eq : NewUrlRepo.regexPath =
    .cat .bol (.cat (.chr '/')
      (.cat (.rep (.cls [('0', '9'), ('A', 'Z'), ('a', 'z')]) 2 15) .eol)) := by
  decide

theorem regexHttp_eq : NewUrlRepo.regexHttp =
    .alt
      (.cat .bol (.cat (.chr 'h') (.cat (.chr 't') (.cat (.chr 't') (.cat (.chr 'p')
        (.cat (.chr ':') (.cat (.chr '/') (.chr '/'))))))))
      (.cat .bol (.cat (.chr 'h') (.cat (.chr 't') (.cat (.chr 't') (.cat (.chr 'p')
        (.cat (.chr 's') (.cat (.chr ':') (.cat (.chr '/') (.chr '/'))))))))) := by
  decide

/-- What `REGEX_URL` accepts. -/
theorem matchString_url (s : String) :
    MatchString NewUrlRepo.regexUrl s = true ↔ SpecValidateURL s := by
  rw [regexUrl_eq, matchString_bol, exists_mem_ends_cat_eol]
  show [] ∈ repEnds _ 5 200 s.data ↔ _
  rw [nil_mem_repEnds_cls]
  simp only [inRanges_urlClass]
  exact Iff.rfl

/-- What `REGEX_PATH` accepts. -/
theorem matchString_path (p : String) :
    MatchString NewUrlRepo.regexPath p = true ↔
      ∃ tl : List Char, p.data = '/' :: tl ∧ 2 ≤ tl.length ∧ tl.length ≤ 15 ∧
        ∀ c ∈ tl, c.isAlpha = true ∨ c.isDigit = true := by
  rw [regexPath_eq, matchString_bol]
  simp only [mem_ends_cat _ (.chr '/'), mem_ends_chr]
  have key : ∀ m : List Char,
      (∃ t, t ∈ ends p.length (.cat (.rep (.cls [('0', '9'), ('A', 'Z'), ('a', 'z')]) 2 15)
        .eol) m) ↔
        2 ≤ m.length ∧ m.length ≤ 15 ∧ ∀ c ∈ m, c.isAlpha = true ∨ c.isDigit = true := by
    intro m
    rw [exists_mem_ends_cat_eol]
    show [] ∈ repEnds _ 2 15 m ↔ _
    rw [nil_mem_repEnds_cls]
    simp only [inRanges_pathClass]
  constructor
  · rintro ⟨t, m, hp, ht⟩
    exact ⟨m, hp, (key m).1 ⟨t, ht⟩⟩
  · rintro ⟨m, hp, hm⟩
    obtain ⟨t, ht⟩ := (key m).2 hm
    exact ⟨t, m, hp, ht⟩

/-- What `REGEX_HTTP` accepts. -/
theorem matchString_http (s : String) :
    MatchString NewUrlRepo.regexHttp s = true ↔ SpecHasScheme s := by
  rw [regexHttp_eq, matchString_alt, matchString_bol, matchString_bol]
  simp only [mem_ends_cat, mem_ends_chr]
  constructor
  · rintro (⟨t, m1, h, m2, rfl, m3, rfl, m4, rfl, m5, rfl, m6, rfl, rfl⟩ |
      ⟨t, m1, h, m2, rfl, m3, rfl, m4, rfl, m5, rfl, m6, rfl, m7, rfl, rfl⟩)
    · exact Or.inl ⟨t, h.symm⟩
    · exact Or.inr ⟨t, h.symm⟩
  · rintro (⟨t, h⟩ | ⟨t, h⟩)
    · exact Or.inl ⟨t, _, h.symm, _, rfl, _, rfl, _, rfl, _, rfl, _, rfl, rfl⟩
    · exact Or.inr ⟨t, _, h.symm, _, rfl, _, rfl, _, rfl, _, rfl, _, rfl, _, rfl, rfl⟩

/-! ## The checksum is a 32-bit word and prints as eight hexadecimal digits -/

theorem shiftRight_le_self (a k : Nat) : a >>> k ≤ a := by
  rw [Nat.shiftRight_eq_div_pow]
  exact Nat.div_le_self _ _

theorem tableStep_lt (poly crc : Nat) (hp : poly < 2 ^ 32) (hc : crc < 2 ^ 32) :
    tableStep poly crc < 2 ^ 32 := by
  have hs : crc >>> 1 < 2 ^ 32 := lt_of_le_of_lt (shiftRight_le_self _ _) hc
  unfold tableStep
  split
  · exact Nat.xor_lt_two_pow hs hp
  · exact hs

theorem iterate_tableStep_lt (poly : Nat) (hp : poly < 2 ^ 32) (k crc : Nat)
    (hc : crc < 2 ^ 32) : (tableStep poly)^[k] crc < 2 ^ 32 := by
  induction k generalizing crc with
  | zero => simpa using hc
  | succ k ih =>
      rw [Function.iterate_succ_apply]
      exact ih _ (tableStep_lt poly crc hp hc)

theorem makeTable_getD_lt (poly : Nat) (hp : poly < 2 ^ 32) (i : Nat) :
    (MakeTable poly).getD i 0 < 2 ^ 32 := by
  unfold MakeTable
  by_cases hi : i < 256
  · rw [List.getD_eq_getElem _ _ (by simpa using hi)]
    simp only [List.getElem_map, List.getElem_range]
    exact iterate_tableStep_lt poly hp 8 i (by omega)
  · rw [List.getD_eq_default _ _ (by simpa using hi)]
    decide

theorem checksum_lt (tab : List Nat) (htab : ∀ i, tab.getD i 0 < 2 ^ 32) (data : List Nat) :
    Checksum data tab < 2 ^ 32 := by
  unfold Checksum
  have key : ∀ (data : List Nat) (crc : Nat), crc < 2 ^ 32 →
      data.foldl (fun crc v => tab.getD ((crc % 256) ^^^ v) 0 ^^^ (crc >>> 8)) crc < 2 ^ 32 := by
    intro data
    induction data with
    | nil => intro crc h; simpa using h
    | cons v vs ih =>
        intro crc h
        rw [List.foldl_cons]
        apply ih
        exact Nat.xor_lt_two_pow (htab _) (lt_of_le_of_lt (shiftRight_le_self _ _) h)
  exact Nat.xor_lt_two_pow (key data _ (by decide)) (by decide)

theorem digitChar_mem_hexChars (m : Nat) (h : m < 16) : Nat.digitChar m ∈ hexChars := by
  interval_cases m <;> decide

theorem toDigitsCore_hex : ∀ (f n : Nat) (acc : List Char),
    (∀ c ∈ acc, c ∈ hexChars) → ∀ c ∈ Nat.toDigitsCore 16 f n acc, c ∈ hexChars := by
  intro f
  induction f with
  | zero => intro n acc h; simpa [Nat.toDigitsCore] using h
  | succ f ih =>
      intro n acc h
      have hd : Nat.digitChar (n % 16) ∈ hexChars :=
        digitChar_mem_hexChars _ (Nat.mod_lt _ (by decide))
      have hacc : ∀ c ∈ Nat.digitChar (n % 16) :: acc, c ∈ hexChars := by
        intro c hc
        rcases List.mem_cons.1 hc with rfl | hc
        · exact hd
        · exact h c hc
      simp only [Nat.toDigitsCore]
      split
      · exact hacc
      · exact ih _ _ hacc

theorem fmt08x_length (u : Nat) (hu : u < 2 ^ 32) : (fmt08x u).length = 8 := by
  have hlen : (Nat.toDigits 16 u).length ≤ 8 :=
    Nat.toDigitsCore_length 16 (by decide) (u + 1) u 8 (by simpa using hu) (by decide)
  simp only [fmt08x, List.length_append, List.length_replicate]
  omega

theorem fmt08x_hex (u : Nat) : ∀ c ∈ fmt08x u, c ∈ hexChars := by
  intro c hc
  simp only [fmt08x, List.mem_append, List.mem_replicate] at hc
  rcases hc with ⟨_, rfl⟩ | hc
  · decide
  · exact toDigitsCore_hex _ _ [] (by simp) c hc

/-! ## The table-driven checksum computes the bit-serial CRC-32 -/

theorem tableStep_IEEE (crc : Nat) : tableStep IEEE crc = specCrcBit crc := by
  unfold tableStep specCrcBit IEEE
  rw [Nat.and_one_is_mod]
  rfl

theorem xor_mod_two (a b : Nat) : (a ^^^ b) % 2 = (a % 2 + b % 2) % 2 := by
  have h := Nat.testBit_xor a b 0
  simp only [Nat.testBit_zero] at h
  rcases Nat.mod_two_eq_zero_or_one a with ha | ha <;>
    rcases Nat.mod_two_eq_zero_or_one b with hb | hb <;>
    rcases Nat.mod_two_eq_zero_or_one (a ^^^ b) with hab | hab <;>
    simp [ha, hb, hab] at h ⊢

theorem xor_right_swap (x y p : Nat) : x ^^^ y ^^^ p = x ^^^ p ^^^ y := by
  rw [Nat.xor_assoc, Nat.xor_comm y p, ← Nat.xor_assoc]

theorem xor_cancel_both (x y p : Nat) : x ^^^ y = x ^^^ p ^^^ (y ^^^ p) := by
  rw [Nat.xor_comm y p, ← Nat.xor_assoc, Nat.xor_assoc x p p, Nat.xor_self, Nat.xor_zero]

theorem specCrcBit_xor (a b : Nat) : specCrcBit (a ^^^ b) = specCrcBit a ^^^ specCrcBit b := by
  unfold specCrcBit
  rw [xor_mod_two, Nat.xor_div_two]
  rcases Nat.mod_two_eq_zero_or_one a with ha | ha <;>
    rcases Nat.mod_two_eq_zero_or_one b with hb | hb
  · simp [ha, hb]
  · simp only [ha, hb, Nat.zero_add, Nat.add_zero, Nat.reduceMod, Nat.reduceAdd, if_true,
      if_false, Nat.zero_ne_one]
    exact Nat.xor_assoc _ _ _
  · simp only [ha, hb, Nat.zero_add, Nat.add_zero, Nat.reduceMod, Nat.reduceAdd, if_true,
      if_false, Nat.zero_ne_one]
    exact xor_right_swap _ _ _
  · simp only [ha, hb, Nat.zero_add, Nat.add_zero, Nat.reduceMod, Nat.reduceAdd, if_true,
      if_false, Nat.zero_ne_one]
    exact xor_cancel_both _ _ _

theorem iterate_specCrcBit_xor (k a b : Nat) :
    specCrcBit^[k] (a ^^^ b) = specCrcBit^[k] a ^^^ specCrcBit^[k] b := by
  induction k generalizing a b with
  | zero => rfl
  | succ k ih => rw [Function.iterate_succ_apply, Function.iterate_succ_apply,
      Function.iterate_succ_apply, specCrcBit_xor, ih]

theorem iterate_specCrcBit_shift (k h : Nat) : specCrcBit^[k] (h * 2 ^ k) = h := by
  induction k with
  | zero => simp
  | succ k ih =>
      rw [Function.iterate_succ_apply]
      have h1 : specCrcBit (h * 2 ^ (k + 1)) = h * 2 ^ k := by
        unfold specCrcBit
        have e : h * 2 ^ (k + 1) = 2 * (h * 2 ^ k) := by ring
        rw [e]
        simp
      rw [h1, ih]

theorem split_low_byte (x : Nat) : x = (x % 256) ^^^ (x / 256 * 2 ^ 8) := by
  apply Nat.eq_of_testBit_eq
  intro i
  have e1 : x % 256 = x % 2 ^ 8 := rfl
  have e2 : x / 256 * 2 ^ 8 = (x >>> 8) <<< 8 := by
    rw [Nat.shiftRight_eq_div_pow, Nat.shiftLeft_eq]
  rw [e1, e2, Nat.testBit_xor, Nat.testBit_mod_two_pow, Nat.testBit_shiftLeft,
    Nat.testBit_shiftRight]
  by_cases hi : i < 8
  · simp [hi, Nat.not_le.2 hi]
  · have hge : 8 ≤ i := Nat.le_of_not_lt hi
    simp [hi, hge, Nat.add_sub_cancel' hge]

theorem table_step_eq (crc v : Nat) (hv : v < 256) :
    (MakeTable IEEE).getD ((crc % 256) ^^^ v) 0 ^^^ (crc >>> 8) = specCrcByte crc v := by
  have hidx : (crc % 256) ^^^ v < 256 :=
    Nat.xor_lt_two_pow (n := 8) (Nat.mod_lt _ (by decide)) hv
  have hget : (MakeTable IEEE).getD ((crc % 256) ^^^ v) 0 = specCrcBit^[8] ((crc % 256) ^^^ v) := by
    unfold MakeTable
    rw [List.getD_eq_getElem _ _ (by simpa using hidx)]
    simp only [List.getElem_map, List.getElem_range]
    congr 1
    funext c
    exact tableStep_IEEE c
  have hx : crc ^^^ v = ((crc % 256) ^^^ v) ^^^ (crc / 256 * 2 ^ 8) := by
    conv_lhs => rw [split_low_byte crc]
    rw [Nat.xor_assoc, Nat.xor_assoc, Nat.xor_comm v]
  unfold specCrcByte
  rw [hget, hx, iterate_specCrcBit_xor 8 ((crc % 256) ^^^ v) (crc / 256 * 2 ^ 8),
    iterate_specCrcBit_shift, Nat.shiftRight_eq_div_pow]

theorem checksum_eq_spec (data : List Nat) (hdata : ∀ v ∈ data, v < 256) :
    Checksum data (MakeTable IEEE) = SpecCrc32 data := by
  unfold Checksum SpecCrc32
  have key : ∀ (data : List Nat), (∀ v ∈ data, v < 256) → ∀ crc : Nat,
      data.foldl (fun crc v => (MakeTable IEEE).getD ((crc % 256) ^^^ v) 0 ^^^ (crc >>> 8)) crc
        = data.foldl specCrcByte crc := by
    intro data
    induction data with
    | nil => intro _ crc; rfl
    | cons v vs ih =>
        intro h crc
        rw [List.foldl_cons, List.foldl_cons, table_step_eq crc v (h v (by simp))]
        exact ih (fun w hw => h w (by simp [hw])) _
  rw [key data hdata]
  rfl

/-! ## Bytes of ASCII text, decimal numerals and reading hexadecimal back -/

theorem utf8EncodeChar_ascii (c : Char) (h : c.toNat < 128) :
    (String.utf8EncodeChar c).map UInt8.toNat = [c.toNat] := by
  have hle : c.val ≤ 0x7f := by
    show c.val.toNat ≤ 127
    exact Nat.lt_succ_iff.1 h
  simp only [String.utf8EncodeChar, hle, if_true, List.map_cons, List.map_nil]
  congr 1
  show (c.val.toNat % 256) = c.val.toNat
  exact Nat.mod_eq_of_lt (lt_trans h (by decide))

theorem bytes_ascii (s : String) (h : ∀ c ∈ s.data, c.toNat < 128) :
    bytes s = s.data.map Char.toNat := by
  unfold bytes
  generalize s.data = l at h
  induction l with
  | nil => rfl
  | cons c cs ih =>
      rw [List.flatMap_cons, List.map_append, utf8EncodeChar_ascii c (h c (by simp)),
        ih (fun d hd => h d (by simp [hd]))]
      rfl

theorem bytes_append (a b : String) : bytes (a ++ b) = bytes a ++ bytes b := by
  simp [bytes, List.flatMap_append]

theorem bytes_lt (s : String) : ∀ v ∈ bytes s, v < 256 := by
  intro v hv
  simp only [bytes, List.mem_map] at hv
  obtain ⟨b, _, rfl⟩ := hv
  exact b.toNat_lt

theorem urlChar_ascii (c : Char) (h : urlChar c) : c.toNat < 128 := by
  unfold urlChar at h
  rw [isAlpha_iff, isDigit_iff, char_eq_iff, char_eq_iff, char_eq_iff, char_eq_iff] at h
  have h1 : '_'.toNat = 95 := rfl
  have h2 : ':'.toNat = 58 := rfl
  have h3 : '.'.toNat = 46 := rfl
  have h4 : '/'.toNat = 47 := rfl
  rw [h1, h2, h3, h4] at h
  omega

theorem digitChar_toNat (d : Nat) (h : d < 10) : (Nat.digitChar d).toNat = d + 48 := by
  interval_cases d <;> rfl

theorem toDigitsCore_ten : ∀ (fuel n : Nat) (acc : List Char), n < fuel → 0 < n →
    Nat.toDigitsCore 10 fuel n acc = (Nat.digits 10 n).reverse.map Nat.digitChar ++ acc := by
  intro fuel
  induction fuel with
  | zero => intro n acc h; omega
  | succ fuel ih =>
      intro n acc hlt hpos
      rw [Nat.digits_def' (by decide) hpos]
      simp only [Nat.toDigitsCore]
      by_cases hq : n / 10 = 0
      · simp [hq]
      · rw [if_neg hq, ih (n / 10) _ (by omega) (Nat.pos_of_ne_zero hq)]
        simp

theorem itoa_data (n : Nat) :
    (Itoa n).data.map Char.toNat = SpecDecimal n := by
  unfold SpecDecimal
  by_cases h0 : n = 0
  · subst h0
    rfl
  · rw [if_neg h0]
    have hd : (Itoa n).data = (Nat.digits 10 n).reverse.map Nat.digitChar := by
      show Nat.toDigitsCore 10 (n + 1) n [] = _
      rw [toDigitsCore_ten (n + 1) n [] (by omega) (Nat.pos_of_ne_zero h0)]
      simp
    rw [hd, List.map_map]
    apply List.map_congr_left
    intro d hdm
    exact digitChar_toNat d (Nat.digits_lt_base (by decide) (List.mem_reverse.1 hdm))

theorem itoa_ascii (n : Nat) : ∀ c ∈ (Itoa n).data, c.toNat < 128 := by
  intro c hc
  have hmem : c.toNat ∈ SpecDecimal n := by
    rw [← itoa_data]
    exact List.mem_map_of_mem _ hc
  unfold SpecDecimal at hmem
  split at hmem
  · simp at hmem
    omega
  · simp only [List.mem_map, List.mem_reverse] at hmem
    obtain ⟨d, hd, hdc⟩ := hmem
    have := Nat.digits_lt_base (b := 10) (by decide) hd
    omega

theorem hexDigitValue_digitChar (m : Nat) (h : m < 16) : hexDigitValue (Nat.digitChar m) = m := by
  interval_cases m <;> decide

theorem hexFold_toDigitsCore : ∀ (fuel n : Nat) (acc : List Char), n < fuel →
    (Nat.toDigitsCore 16 fuel n acc).foldl (fun a c => 16 * a + hexDigitValue c) 0 =
      acc.foldl (fun a c => 16 * a + hexDigitValue c) n := by
  intro fuel
  induction fuel with
  | zero => intro n acc h; omega
  | succ fuel ih =>
      intro n acc hlt
      simp only [Nat.toDigitsCore]
      have hd := hexDigitValue_digitChar (n % 16) (Nat.mod_lt _ (by decide))
      by_cases hq : n / 16 = 0
      · rw [if_pos hq, List.foldl_cons, hd]
        congr 1
        omega
      · rw [if_neg hq, ih (n / 16) _ (by omega), List.foldl_cons, hd]
        congr 1
        omega

theorem hexFold_replicate_zero (k : Nat) (rest : List Char) :
    (List.replicate k '0' ++ rest).foldl (fun a c => 16 * a + hexDigitValue c) 0 =
      rest.foldl (fun a c => 16 * a + hexDigitValue c) 0 := by
  induction k with
  | zero => rfl
  | succ k ih =>
      rw [List.replicate_succ, List.cons_append, List.foldl_cons]
      exact ih

theorem hexValue_fmt08x (u : Nat) : hexValue (fmt08x u) = u := by
  unfold hexValue fmt08x
  rw [hexFold_replicate_zero]
  exact hexFold_toDigitsCore (u + 1) u [] (by omega)

/-! ## Shortcut creation -/

theorem specValidatePath_iff (p : String) :
    SpecValidatePath p ↔
      ∃ tl : List Char, p.data = '/' :: tl ∧ 2 ≤ tl.length ∧ tl.length ≤ 15 ∧
        ∀ c ∈ tl, c.isAlpha = true ∨ c.isDigit = true := by
  unfold SpecValidatePath
  split
  · next t ht =>
      constructor
      · intro h; exact ⟨t, ht, h⟩
      · rintro ⟨tl, htl, h⟩
        rw [ht] at htl
        cases htl
        exact h
  · next hne =>
      constructor
      · intro h; exact h.elim
      · rintro ⟨tl, htl, _⟩
        exact hne tl htl

theorem isShortCode_iff (k : String) :
    IsShortCode k ↔
      ∃ ds : List Char, k = String.mk ('/' :: ds) ∧ ds.length = 8 ∧ ∀ c ∈ ds, c ∈ hexChars := by
  unfold IsShortCode
  split
  · next ds hds =>
      constructor
      · intro h; exact ⟨ds, String.ext hds, h⟩
      · rintro ⟨ds1, hk, h⟩
        rw [hk] at hds
        cases hds
        exact h
  · next hne =>
      constructor
      · intro h; exact h.elim
      · rintro ⟨ds, hk, _⟩
        exact hne ds (by rw [hk])

theorem matchString_path_spec (p : String) :
    MatchString NewUrlRepo.regexPath p = true ↔ SpecValidatePath p := by
  rw [matchString_path, specValidatePath_iff]

theorem createNewShortcut_valid (rnd : Nat) (url : String)
    (h : MatchString NewUrlRepo.regexUrl url = true) :
    NewUrlRepo.CreateNewShortcut rnd url =
      (String.mk ('/' :: fmt08x (Checksum (bytes (url ++ Itoa rnd)) (MakeTable IEEE))), none) := by
  show (if MatchString NewUrlRepo.regexUrl url = true then _ else _) = _
  rw [if_pos h]
  rfl

theorem createNewShortcut_invalid (rnd : Nat) (url : String)
    (h : ¬ MatchString NewUrlRepo.regexUrl url = true) :
    NewUrlRepo.CreateNewShortcut rnd url = ("", some "Invalid url input") := by
  show (if MatchString NewUrlRepo.regexUrl url = true then _ else _) = _
  rw [if_neg h]

theorem isShortCode_shortcut (rnd : Nat) (url : String) :
    IsShortCode
      (String.mk ('/' :: fmt08x (Checksum (bytes (url ++ Itoa rnd)) (MakeTable IEEE)))) :=
  (isShortCode_iff _).2
    ⟨_, rfl, fmt08x_length _ (checksum_lt _ (makeTable_getD_lt IEEE (by decide)) _),
      fmt08x_hex _⟩

theorem hexChars_alnum (c : Char) (h : c ∈ hexChars) : c.isAlpha = true ∨ c.isDigit = true := by
  revert c
  decide

theorem matchString_path_of_isShortCode (k : String) (h : IsShortCode k) :
    MatchString NewUrlRepo.regexPath k = true := by
  obtain ⟨ds, rfl, hlen, hc⟩ := (isShortCode_iff k).1 h
  rw [matchString_path]
  exact ⟨ds, rfl, by omega, by omega, fun c hcm => hexChars_alnum c (hc c hcm)⟩

theorem isShortCode_ne_root (k : String) (h : IsShortCode k) : k ≠ "/" := by
  obtain ⟨ds, rfl, hlen, _⟩ := (isShortCode_iff k).1 h
  intro heq
  have := congrArg String.length heq
  simp [String.length, hlen] at this

theorem hasScheme_storedValue (url : String) : SpecHasScheme (storedValue url) := by
  unfold storedValue
  split
  · assumption
  · exact Or.inl ⟨url.data, by simp⟩

/-! ## The handler, branch by branch -/

theorem handler_post_valid (env : Env) (store : Store) (req : Request)
    (hpath : req.Path = "/") (hmeth : req.Method = "POST")
    (hurl : MatchString NewUrlRepo.regexUrl (req.FormValue "url") = true) :
    NewUrlRepo.HomepageHandler env store req =
      match Conn.Set env.fault env.landed store (NewUrlRepo.CreateNewShortcut env.rnd (req.FormValue "url")).1
          (storedValue (req.FormValue "url")) with
      | (store', some err) =>
          ⟨.render "homepage.gohtml" { Err := some err }, store',
            [.set (NewUrlRepo.CreateNewShortcut env.rnd (req.FormValue "url")).1
              (storedValue (req.FormValue "url"))]⟩
      | (store', none) =>
          ⟨.render "homepage.gohtml"
              { NewShortcut := "localhost:8080" ++
                  (NewUrlRepo.CreateNewShortcut env.rnd (req.FormValue "url")).1 },
            store',
            [.set (NewUrlRepo.CreateNewShortcut env.rnd (req.FormValue "url")).1
              (storedValue (req.FormValue "url"))]⟩ := by
  have hv : (if (!MatchString NewUrlRepo.regexHttp (req.FormValue "url")) = true
      then "http://" ++ req.FormValue "url" else req.FormValue "url")
      = storedValue (req.FormValue "url") := by
    unfold storedValue
    by_cases hs : SpecHasScheme (req.FormValue "url")
    · have : MatchString NewUrlRepo.regexHttp (req.FormValue "url") = true := (matchString_http _).2 hs
      simp [this, hs]
    · have : MatchString NewUrlRepo.regexHttp (req.FormValue "url") = false := by
        rw [← Bool.not_eq_true]; exact fun h => hs ((matchString_http _).1 h)
      simp [this, hs]
  unfold URLRepo.HomepageHandler
  simp only [hpath, hmeth, MethodPost, if_true, createNewShortcut_valid env.rnd _ hurl, hv]
  rfl

theorem handler_post_invalid (env : Env) (store : Store) (req : Request)
    (hpath : req.Path = "/") (hmeth : req.Method = "POST")
    (hurl : ¬ MatchString NewUrlRepo.regexUrl (req.FormValue "url") = true) :
    NewUrlRepo.HomepageHandler env store req =
      ⟨.render "homepage.gohtml" { Err := some "Invalid url input" }, store, []⟩ := by
  unfold URLRepo.HomepageHandler
  simp only [hpath, hmeth, MethodPost, if_true, createNewShortcut_invalid env.rnd _ hurl]

theorem handler_root_other (env : Env) (store : Store) (req : Request)
    (hpath : req.Path = "/") (hmeth : req.Method ≠ "POST") :
    NewUrlRepo.HomepageHandler env store req = ⟨.render "homepage.gohtml" {}, store, []⟩ := by
  unfold URLRepo.HomepageHandler
  simp only [hpath, hmeth, MethodPost, if_true, if_false]

theorem handler_lookup (env : Env) (store : Store) (req : Request)
    (hpath : req.Path ≠ "/") (hvalid : MatchString NewUrlRepo.regexPath req.Path = true) :
    NewUrlRepo.HomepageHandler env store req =
      match Conn.Get env.fault store req.Path with
      | .error _ =>
          ⟨.render "homepage.gohtml" { Err := some "Shortcut not found" }, store,
            [.get req.Path]⟩
      | .ok result => ⟨.redirect (Redirect req.Path result) 301, store, [.get req.Path]⟩ := by
  unfold URLRepo.HomepageHandler
  simp only [hpath, hvalid, if_true, if_false]
  rfl

theorem handler_badpath (env : Env) (store : Store) (req : Request)
    (hpath : req.Path ≠ "/") (hvalid : ¬ MatchString NewUrlRepo.regexPath req.Path = true) :
    NewUrlRepo.HomepageHandler env store req =
      ⟨.render "homepage.gohtml" { Err := some "Url bad formatted" }, store, []⟩ := by
  unfold URLRepo.HomepageHandler
  simp only [hpath, hvalid, if_false]
  rfl

/-- The store after a request: unchanged, or the store before with the
generated shortcut bound to the stored value of a valid submitted URL. -/
theorem handler_store (env : Env) (store : Store) (req : Request) :
    (NewUrlRepo.HomepageHandler env store req).store = store ∨
      (MatchString NewUrlRepo.regexUrl (req.FormValue "url") = true ∧
        (NewUrlRepo.HomepageHandler env store req).ops =
          [.set (NewUrlRepo.CreateNewShortcut env.rnd (req.FormValue "url")).1
            (storedValue (req.FormValue "url"))] ∧
        (NewUrlRepo.HomepageHandler env store req).store =
          fun k => if k = (NewUrlRepo.CreateNewShortcut env.rnd (req.FormValue "url")).1
            then some (storedValue (req.FormValue "url")) else store k) := by
  by_cases hpath : req.Path = "/"
  · by_cases hmeth : req.Method = "POST"
    · by_cases hurl : MatchString NewUrlRepo.regexUrl (req.FormValue "url") = true
      · rw [handler_post_valid env store req hpath hmeth hurl]
        cases hf : env.fault with
        | none => right; exact ⟨hurl, rfl, rfl⟩
        | some e =>
            cases hl : env.landed with
            | false => left; rfl
            | true => right; exact ⟨hurl, rfl, rfl⟩
      · left; rw [handler_post_invalid env store req hpath hmeth hurl]
    · left; rw [handler_root_other env store req hpath hmeth]
  · by_cases hvalid : MatchString NewUrlRepo.regexPath req.Path = true
    · left
      rw [handler_lookup env store req hpath hvalid]
      cases Conn.Get env.fault store req.Path <;> rfl
    · left; rw [handler_badpath env store req hpath hvalid]

theorem string_append_left_cancel (a b c : String) (h : a ++ b = a ++ c) : b = c := by
  apply String.ext
  have := congrArg String.data h
  simpa using this

/-- Every binding of the store after a request is a binding of the store
before it or the binding written by the request, a short code bound to a URL
with a scheme. -/
theorem handler_store_binding (env : Env) (store : Store) (req : Request) (k v : String)
    (h : (NewUrlRepo.HomepageHandler env store req).store k = some v) :
    store k = some v ∨ (IsShortCode k ∧ SpecHasScheme v) := by
  rcases handler_store env store req with hs | ⟨hurl, _, hs⟩
  · rw [hs] at h
    exact Or.inl h
  · rw [hs] at h
    beta_reduce at h
    by_cases hk : k = (NewUrlRepo.CreateNewShortcut env.rnd (req.FormValue "url")).1
    · right
      rw [if_pos hk] at h
      cases h
      rw [hk, createNewShortcut_valid _ _ hurl]
      exact ⟨isShortCode_shortcut _ _, hasScheme_storedValue _⟩
    · rw [if_neg hk] at h
      exact Or.inl h

theorem run_invariant (reqs : List (Env × Request)) :
    ∀ store : Store, (∀ k v, store k = some v → IsShortCode k ∧ SpecHasScheme v) →
      ∀ k v, run NewUrlRepo store reqs k = some v → IsShortCode k ∧ SpecHasScheme v := by
  induction reqs with
  | nil => intro store hinv k v h; exact hinv k v h
  | cons e rest ih =>
      intro store hinv k v h
      obtain ⟨env, req⟩ := e
      apply ih (NewUrlRepo.HomepageHandler env store req).store _ k v h
      intro k' v' h'
      rcases handler_store_binding env store req k' v' h' with h0 | h1
      · exact hinv k' v' h0
      · exact h1

/-! ## Targets that `http.Redirect` leaves as they are -/

theorem hexEscapeNonASCII_ascii (s : List Char) (h : ∀ c ∈ s, c.toNat < 128) :
    hexEscapeNonASCII s = s := by
  unfold hexEscapeNonASCII
  induction s with
  | nil => rfl
  | cons c cs ih =>
      have hc : c.toNat < 0x80 := h c (by simp)
      rw [List.flatMap_cons, if_pos hc, ih (fun d hd => h d (by simp [hd]))]
      rfl

theorem getScheme_http (u : List Char) :
    getScheme ('h' :: 't' :: 't' :: 'p' :: ':' :: u) = some (['h', 't', 't', 'p'], u) := rfl

theorem getScheme_https (u : List Char) :
    getScheme ('h' :: 't' :: 't' :: 'p' :: 's' :: ':' :: u) =
      some (['h', 't', 't', 'p', 's'], u) := rfl

theorem parsesRelative_http (t : List Char) :
    parsesRelative ('h' :: 't' :: 't' :: 'p' :: ':' :: t) = false := by
  have hu : List.takeWhile (fun c => c != '#') ('h' :: 't' :: 't' :: 'p' :: ':' :: t) =
      'h' :: 't' :: 't' :: 'p' :: ':' :: List.takeWhile (fun c => c != '#') t := rfl
  unfold parsesRelative
  simp only [hu, getScheme_http]
  split
  · rfl
  · split
    · next h => cases h
    · rfl

theorem parsesRelative_https (t : List Char) :
    parsesRelative ('h' :: 't' :: 't' :: 'p' :: 's' :: ':' :: t) = false := by
  have hu : List.takeWhile (fun c => c != '#') ('h' :: 't' :: 't' :: 'p' :: 's' :: ':' :: t) =
      'h' :: 't' :: 't' :: 'p' :: 's' :: ':' :: List.takeWhile (fun c => c != '#') t := rfl
  unfold parsesRelative
  simp only [hu, getScheme_https]
  split
  · rfl
  · split
    · next h => cases h
    · rfl

theorem parsesRelative_of_hasScheme (v : String) (h : SpecHasScheme v) :
    parsesRelative v.data = false := by
  rcases h with ⟨t, ht⟩ | ⟨t, ht⟩
  · rw [← ht]; exact parsesRelative_http _
  · rw [← ht]; exact parsesRelative_https _

/-- A target that starts with `http://` or `https://` and is ASCII is the
`Location` written. -/
theorem redirect_of_hasScheme (oldpath v : String) (h : SpecHasScheme v)
    (hascii : ∀ c ∈ v.data, c.toNat < 128) : Redirect oldpath v = v := by
  unfold Redirect
  rw [parsesRelative_of_hasScheme v h]
  simp only [Bool.false_eq_true, if_false]
  rw [hexEscapeNonASCII_ascii _ hascii]

theorem storedValue_ascii (url : String) (h : ∀ c ∈ url.data, c.toNat < 128) :
    ∀ c ∈ (storedValue url).data, c.toNat < 128 := by
  unfold storedValue
  split
  · exact h
  · intro c hc
    rw [String.data_append, List.mem_append] at hc
    rcases hc with hc | hc
    · revert c
      decide
    · exact h c hc

/-! ## The claims -/

/-- C1: the URL check of `CreateNewShortcut` accepts a string exactly when it
has 5 to 200 characters, each an ASCII letter, an ASCII digit or one of
`_ : . /`; `CreateNewShortcut` returns a nil error exactly for those strings,
and for every other string, a string with a trailing newline included, it
returns the error "Invalid url input" with an empty shortcut. -/
theorem C1_url_validation (s : String) (rnd : Nat) :
    (MatchString NewUrlRepo.regexUrl s = true ↔ SpecValidateURL s) ∧
    ((NewUrlRepo.CreateNewShortcut rnd s).2 = none ↔ SpecValidateURL s) ∧
    (¬ SpecValidateURL s →
      NewUrlRepo.CreateNewShortcut rnd s = ("", some "Invalid url input")) ∧
    NewUrlRepo.CreateNewShortcut rnd (s ++ "\n") = ("", some "Invalid url input") := by
  have hm : ∀ t : String, MatchString NewUrlRepo.regexUrl t = true ↔ SpecValidateURL t :=
    fun t => matchString_url t
  refine ⟨hm s, ?_, ?_, ?_⟩
  · by_cases h : MatchString NewUrlRepo.regexUrl s = true
    · rw [createNewShortcut_valid rnd s h]
      exact ⟨fun _ => (hm s).1 h, fun _ => rfl⟩
    · rw [createNewShortcut_invalid rnd s h]
      exact ⟨fun hn => by simp at hn, fun hv => absurd ((hm s).2 hv) h⟩
  · intro hv
    exact createNewShortcut_invalid rnd s (fun h => hv ((hm s).1 h))
  · apply createNewShortcut_invalid
    intro h
    have hc := ((hm _).1 h).2.2 '\n' (by simp)
    revert hc
    decide

/-- Witness of C1 at the two-character input `ab`. -/
theorem C1_url_validation_witness :
    ¬ SpecValidateURL "ab" ∧
      NewUrlRepo.CreateNewShortcut 7 "ab" = ("", some "Invalid url input") :=
  ⟨by decide, (C1_url_validation "ab" 7).2.2.1 (by decide)⟩

/-- C2: the path check of `HomepageHandler` accepts a path exactly when it is
a slash followed by 2 to 15 ASCII letters or digits; `/`, `/a` and a slash
followed by 16 letters or digits are rejected. -/
theorem C2_path_validation (p : String) :
    (MatchString NewUrlRepo.regexPath p = true ↔ SpecValidatePath p) ∧
    MatchString NewUrlRepo.regexPath "/" = false ∧
    MatchString NewUrlRepo.regexPath "/a" = false ∧
    (∀ t : String, t.length = 16 → (∀ c ∈ t.data, c.isAlpha = true ∨ c.isDigit = true) →
      MatchString NewUrlRepo.regexPath ("/" ++ t) = false) := by
  refine ⟨matchString_path_spec p, by decide, by decide, ?_⟩
  intro t ht _
  rw [← Bool.not_eq_true]
  intro h
  obtain ⟨tl, hp, _, h15, _⟩ := (matchString_path _).1 h
  have htl : tl = t.data := by simpa using hp.symm
  have hlen : t.data.length = 16 := ht
  rw [htl] at h15
  omega

/-- Witness of C2: `/ab12CD` is accepted, a slash followed by sixteen letters is not. -/
theorem C2_path_validation_witness :
    MatchString NewUrlRepo.regexPath "/ab12CD" = true ∧
    MatchString NewUrlRepo.regexPath ("/" ++ "abcdefghijklmnop") = false :=
  ⟨(C2_path_validation "/ab12CD").1.2 (by decide),
    (C2_path_validation "/ab12CD").2.2.2 "abcdefghijklmnop" (by decide) (by decide)⟩

/-- C3: for a URL that passes validation and every draw (those below
1,000,000 in particular), `CreateNewShortcut` succeeds with a nine-character
shortcut: a slash followed by exactly eight lowercase hexadecimal digits, and
the number those digits denote is the 32-bit CRC of the characters of the URL
followed by the decimal digits of the draw. -/
theorem C3_shortcut_format (url : String) (n : Nat)
    (hurl : MatchString NewUrlRepo.regexUrl url = true) :
    ∃ ds : List Char,
      NewUrlRepo.CreateNewShortcut n url = (String.mk ('/' :: ds), none) ∧
      ds.length = 8 ∧ (∀ c ∈ ds, c ∈ hexChars) ∧ (String.mk ('/' :: ds)).length = 9 ∧
      hexValue ds = SpecCrc32 (url.data.map Char.toNat ++ SpecDecimal n) ∧
      SpecCrc32 (url.data.map Char.toNat ++ SpecDecimal n) < 2 ^ 32 := by
  have hascii : ∀ c ∈ url.data, c.toNat < 128 :=
    fun c hc => urlChar_ascii c (((matchString_url url).1 hurl).2.2 c hc)
  have hbytes : bytes (url ++ Itoa n) = url.data.map Char.toNat ++ SpecDecimal n := by
    rw [bytes_append, bytes_ascii url hascii, bytes_ascii (Itoa n) (itoa_ascii n), itoa_data]
  have hspec : Checksum (bytes (url ++ Itoa n)) (MakeTable IEEE) =
      SpecCrc32 (url.data.map Char.toNat ++ SpecDecimal n) := by
    rw [checksum_eq_spec _ (bytes_lt _), hbytes]
  have hlt := checksum_lt _ (makeTable_getD_lt IEEE (by decide)) (bytes (url ++ Itoa n))
  refine ⟨_, createNewShortcut_valid n url hurl, fmt08x_length _ hlt, fmt08x_hex _, ?_, ?_, ?_⟩
  · simp [String.length, fmt08x_length _ hlt]
  · rw [hexValue_fmt08x, hspec]
  · rw [← hspec]; exact hlt

set_option maxRecDepth 20000 in
/-- Witness of C3: `example.com` with the draw 12 gives `/eb308b51`, the CRC-32
of `example.com12`; another draw or another URL gives another code. -/
theorem C3_shortcut_format_witness :
    NewUrlRepo.CreateNewShortcut 12 "example.com" = ("/eb308b51", none) ∧
    hexValue "eb308b51".data =
      SpecCrc32 ("example.com".data.map Char.toNat ++ SpecDecimal 12) ∧
    SpecCrc32 ("example.com12".data.map Char.toNat) = 0xeb308b51 ∧
    NewUrlRepo.CreateNewShortcut 13 "example.com" = ("/9c37bbc7", none) ∧
    NewUrlRepo.CreateNewShortcut 12 "example.org" = ("/81246cc4", none) := by
  obtain ⟨ds, h1, _, _, _, h5, _⟩ := C3_shortcut_format "example.com" 12 (by decide)
  have hlit : NewUrlRepo.CreateNewShortcut 12 "example.com" = ("/eb308b51", none) := by decide
  have hds : ds = "eb308b51".data := by
    rw [hlit] at h1
    have h2 : '/' :: "eb308b51".data = '/' :: ds := congrArg String.data (congrArg Prod.fst h1)
    exact (List.cons.inj h2).2.symm
  subst hds
  exact ⟨hlit, h5, by decide, by decide, by decide⟩

/-- C4: a POST to the root path with a valid `url` issues exactly one write
`Set(shortcut, v)`, where `shortcut` is the generated code and `v` is the URL
itself when it starts with `http://` or `https://` and `http://` followed by
it otherwise. When the write succeeds the result has no error, the link is
`localhost:8080` followed by the shortcut and the store binds the shortcut to
`v`; when it fails the result carries the store's error and an empty link. -/
theorem C4_post_valid (env : Env) (store : Store) (req : Request)
    (hpath : req.Path = "/") (hmeth : req.Method = "POST")
    (hurl : MatchString NewUrlRepo.regexUrl (req.FormValue "url") = true) :
    (NewUrlRepo.HomepageHandler env store req).ops =
        [.set (NewUrlRepo.CreateNewShortcut env.rnd (req.FormValue "url")).1
          (if SpecHasScheme (req.FormValue "url") then req.FormValue "url"
            else "http://" ++ req.FormValue "url")] ∧
    (env.fault = none →
      (NewUrlRepo.HomepageHandler env store req).reply =
          .render "homepage.gohtml"
            { NewShortcut := "localhost:8080" ++
                (NewUrlRepo.CreateNewShortcut env.rnd (req.FormValue "url")).1,
              Err := none } ∧
        (NewUrlRepo.HomepageHandler env store req).store
            (NewUrlRepo.CreateNewShortcut env.rnd (req.FormValue "url")).1 =
          some (if SpecHasScheme (req.FormValue "url") then req.FormValue "url"
            else "http://" ++ req.FormValue "url")) ∧
    (∀ e, env.fault = some e →
      (NewUrlRepo.HomepageHandler env store req).reply =
        .render "homepage.gohtml" { NewShortcut := "", Err := some e }) := by
  rw [handler_post_valid env store req hpath hmeth hurl]
  cases hf : env.fault with
  | none =>
      refine ⟨rfl, fun _ => ⟨rfl, ?_⟩, fun e he => Option.noConfusion he⟩
      simp [Conn.Set, storedValue]
  | some e0 =>
      refine ⟨rfl, fun h => Option.noConfusion h, ?_⟩
      intro e he
      cases he
      rfl

/-- Witness of C4: submitting `example.com` with the draw 12 stores
`http://example.com` and answers `localhost:8080/eb308b51`. -/
theorem C4_post_valid_witness :
    (NewUrlRepo.HomepageHandler ⟨12, none, false⟩ Store.empty
        ⟨"POST", "/", [("url", "example.com")]⟩).ops
      = [.set "/eb308b51" "http://example.com"] ∧
    (NewUrlRepo.HomepageHandler ⟨12, none, false⟩ Store.empty
        ⟨"POST", "/", [("url", "example.com")]⟩).reply
      = .render "homepage.gohtml" { NewShortcut := "localhost:8080/eb308b51", Err := none } ∧
    (NewUrlRepo.HomepageHandler ⟨12, none, false⟩ Store.empty
        ⟨"POST", "/", [("url", "example.com")]⟩).store "/eb308b51"
      = some "http://example.com" :=
  have h := C4_post_valid ⟨12, none, false⟩ Store.empty ⟨"POST", "/", [("url", "example.com")]⟩
    rfl rfl (by decide)
  ⟨h.1, (h.2.1 rfl).1, (h.2.1 rfl).2⟩

/-- C5: a POST to the root path whose `url` fails validation renders the
failure "Invalid url input" with an empty link, issues no store command and
leaves the store as it was. -/
theorem C5_post_invalid (env : Env) (store : Store) (req : Request)
    (hpath : req.Path = "/") (hmeth : req.Method = "POST")
    (hurl : MatchString NewUrlRepo.regexUrl (req.FormValue "url") = false) :
    (NewUrlRepo.HomepageHandler env store req).reply =
        .render "homepage.gohtml" { NewShortcut := "", Err := some "Invalid url input" } ∧
    (NewUrlRepo.HomepageHandler env store req).ops = [] ∧
    (NewUrlRepo.HomepageHandler env store req).store = store := by
  rw [handler_post_invalid env store req hpath hmeth (by rw [Bool.not_eq_true]; exact hurl)]
  exact ⟨rfl, rfl, rfl⟩

/-- Witness of C5: `url=ab`, and a form without the field. -/
theorem C5_post_invalid_witness :
    (NewUrlRepo.HomepageHandler ⟨3, none, false⟩ Store.empty ⟨"POST", "/", [("url", "ab")]⟩).reply =
        .render "homepage.gohtml" { NewShortcut := "", Err := some "Invalid url input" } ∧
    (NewUrlRepo.HomepageHandler ⟨3, none, false⟩ Store.empty ⟨"POST", "/", []⟩).reply =
        .render "homepage.gohtml" { NewShortcut := "", Err := some "Invalid url input" } ∧
    (NewUrlRepo.HomepageHandler ⟨3, none, false⟩ Store.empty ⟨"POST", "/", []⟩).ops = [] :=
  ⟨(C5_post_invalid ⟨3, none, false⟩ Store.empty ⟨"POST", "/", [("url", "ab")]⟩ rfl rfl
      (by decide)).1,
    (C5_post_invalid ⟨3, none, false⟩ Store.empty ⟨"POST", "/", []⟩ rfl rfl (by decide)).1,
    (C5_post_invalid ⟨3, none, false⟩ Store.empty ⟨"POST", "/", []⟩ rfl rfl (by decide)).2.1⟩

/-- C6 fails as stated: with `/ab12CD` bound to `example.org`, a value without
scheme, the read succeeds and the response is a 301 redirect whose `Location`
is `/example.org`, not the stored value. -/
theorem C6_counterexample :
    MatchString NewUrlRepo.regexPath "/ab12CD" = true ∧
    (fun k => if k = "/ab12CD" then some "example.org" else none : Store) "/ab12CD" =
      some "example.org" ∧
    (NewUrlRepo.HomepageHandler ⟨0, none, false⟩
        (fun k => if k = "/ab12CD" then some "example.org" else none)
        ⟨"GET", "/ab12CD", []⟩).reply = .redirect "/example.org" 301 ∧
    (NewUrlRepo.HomepageHandler ⟨0, none, false⟩
        (fun k => if k = "/ab12CD" then some "example.org" else none)
        ⟨"GET", "/ab12CD", []⟩).reply ≠ .redirect "example.org" 301 := by
  decide

/-- C6, amended: a request of any method whose path is not `/` and passes path
validation issues exactly one read `Get(path)` and leaves the store as it was.
When the read succeeds with `v` the reply is the 301 redirect that
`http.Redirect` writes for the target `v`, not a rendered page, and its
`Location` is `v` itself when `v` starts with `http://` or `https://` and is
ASCII; when the read fails, the key being absent or the connection failing,
the rendered result is the failure "Shortcut not found". -/
theorem C6_lookup (env : Env) (store : Store) (req : Request)
    (hpath : req.Path ≠ "/") (hvalid : MatchString NewUrlRepo.regexPath req.Path = true) :
    (NewUrlRepo.HomepageHandler env store req).ops = [.get req.Path] ∧
    (NewUrlRepo.HomepageHandler env store req).store = store ∧
    (∀ v, env.fault = none → store req.Path = some v →
      (NewUrlRepo.HomepageHandler env store req).reply = .redirect (Redirect req.Path v) 301) ∧
    (∀ v, env.fault = none → store req.Path = some v → SpecHasScheme v →
      (∀ c ∈ v.data, c.toNat < 128) →
      (NewUrlRepo.HomepageHandler env store req).reply = .redirect v 301) ∧
    ((store req.Path = none ∨ env.fault ≠ none) →
      (NewUrlRepo.HomepageHandler env store req).reply =
        .render "homepage.gohtml" { NewShortcut := "", Err := some "Shortcut not found" }) := by
  rw [handler_lookup env store req hpath hvalid]
  cases hf : env.fault with
  | some e =>
      exact ⟨rfl, rfl, fun v h => Option.noConfusion h, fun v h => Option.noConfusion h,
        fun _ => rfl⟩
  | none =>
      cases hs : store req.Path with
      | none =>
          have hg : Conn.Get none store req.Path = .error "redis: nil" := by
            simp only [Conn.Get, hs]
          rw [hg]
          exact ⟨rfl, rfl, fun v _ h => Option.noConfusion h,
            fun v _ h => Option.noConfusion h, fun _ => rfl⟩
      | some v0 =>
          have hg : Conn.Get none store req.Path = .ok v0 := by
            simp only [Conn.Get, hs]
          rw [hg]
          refine ⟨rfl, rfl, ?_, ?_, ?_⟩
          · intro v _ h
            cases h
            rfl
          · intro v _ h hsch hascii
            cases h
            show Reply.redirect (Redirect req.Path v0) 301 = _
            rw [redirect_of_hasScheme req.Path v0 hsch hascii]
          · intro h
            rcases h with h | h
            · cases h
            · exact absurd rfl h

/-- Witness of the amended C6: `/ab12CD` bound to `https://example.org`
redirects there, and the absent `/zzzzzzzz` renders "Shortcut not found". -/
theorem C6_lookup_witness :
    (NewUrlRepo.HomepageHandler ⟨0, none, false⟩
        (fun k => if k = "/ab12CD" then some "https://example.org" else none)
        ⟨"GET", "/ab12CD", []⟩).reply = .redirect "https://example.org" 301 ∧
    (NewUrlRepo.HomepageHandler ⟨0, none, false⟩ Store.empty ⟨"GET", "/zzzzzzzz", []⟩).reply =
        .render "homepage.gohtml" { NewShortcut := "", Err := some "Shortcut not found" } :=
  ⟨(C6_lookup ⟨0, none, false⟩
      (fun k => if k = "/ab12CD" then some "https://example.org" else none)
      ⟨"GET", "/ab12CD", []⟩ (by decide) (by decide)).2.2.2.1 "https://example.org" rfl
      (by decide) (by decide) (by decide),
    (C6_lookup ⟨0, none, false⟩ Store.empty ⟨"GET", "/zzzzzzzz", []⟩ (by decide)
      (by decide)).2.2.2.2 (Or.inl rfl)⟩

/-- C7: a request whose path is not `/` and fails path validation renders the
failure "Url bad formatted"; no redirect is issued and the store is neither
read nor written. -/
theorem C7_bad_path (env : Env) (store : Store) (req : Request)
    (hpath : req.Path ≠ "/") (hvalid : MatchString NewUrlRepo.regexPath req.Path = false) :
    (NewUrlRepo.HomepageHandler env store req).reply =
        .render "homepage.gohtml" { NewShortcut := "", Err := some "Url bad formatted" } ∧
    (NewUrlRepo.HomepageHandler env store req).ops = [] ∧
    (NewUrlRepo.HomepageHandler env store req).store = store := by
  rw [handler_badpath env store req hpath (by rw [Bool.not_eq_true]; exact hvalid)]
  exact ⟨rfl, rfl, rfl⟩

/-- Witness of C7 at `GET /a`. -/
theorem C7_bad_path_witness :
    (NewUrlRepo.HomepageHandler ⟨0, none, false⟩ Store.empty ⟨"GET", "/a", []⟩).reply =
        .render "homepage.gohtml" { NewShortcut := "", Err := some "Url bad formatted" } ∧
    (NewUrlRepo.HomepageHandler ⟨0, none, false⟩ Store.empty ⟨"GET", "/a", []⟩).ops = [] :=
  ⟨(C7_bad_path ⟨0, none, false⟩ Store.empty ⟨"GET", "/a", []⟩ (by decide) (by decide)).1,
    (C7_bad_path ⟨0, none, false⟩ Store.empty ⟨"GET", "/a", []⟩ (by decide) (by decide)).2.1⟩

/-- C8: round trip over the store as a key-value map. If a POST to the root
path with a valid URL succeeds and returns the link `localhost:8080` followed
by `shortcut`, then `shortcut` passes path validation and a following request
for that path is answered by a 301 redirect to the URL itself when it starts
with `http://` or `https://`, and to `http://` followed by it otherwise. -/
theorem C8_round_trip (env env2 : Env) (store : Store) (req req2 : Request) (shortcut : String)
    (hpath : req.Path = "/") (hmeth : req.Method = "POST")
    (hurl : MatchString NewUrlRepo.regexUrl (req.FormValue "url") = true)
    (hok : (NewUrlRepo.HomepageHandler env store req).reply =
      .render "homepage.gohtml" { NewShortcut := "localhost:8080" ++ shortcut, Err := none })
    (hpath2 : req2.Path = shortcut) (hfault2 : env2.fault = none) :
    MatchString NewUrlRepo.regexPath shortcut = true ∧
    (NewUrlRepo.HomepageHandler env2 (NewUrlRepo.HomepageHandler env store req).store req2).reply
      = .redirect (if SpecHasScheme (req.FormValue "url") then req.FormValue "url"
          else "http://" ++ req.FormValue "url") 301 := by
  have hgen := createNewShortcut_valid env.rnd _ hurl
  have hcode := isShortCode_shortcut env.rnd (req.FormValue "url")
  rw [handler_post_valid env store req hpath hmeth hurl] at hok ⊢
  cases hf : env.fault with
  | some e =>
      rw [hf] at hok
      have h1 : (some e : Option String) = none := by
        have := hok
        simp only [Conn.Set] at this
        injection this with _ h2
        injection h2
      cases h1
  | none =>
      rw [hf] at hok
      have h1 : "localhost:8080" ++ (NewUrlRepo.CreateNewShortcut env.rnd (req.FormValue "url")).1
          = "localhost:8080" ++ shortcut := by
        have := hok
        simp only [Conn.Set] at this
        injection this with _ h2
        injection h2
      have hsc : (NewUrlRepo.CreateNewShortcut env.rnd (req.FormValue "url")).1 = shortcut :=
        string_append_left_cancel _ _ _ h1
      rw [hgen] at hsc
      have hcode2 : IsShortCode shortcut := hsc ▸ hcode
      have hvalid : MatchString NewUrlRepo.regexPath req2.Path = true := by
        rw [hpath2]; exact matchString_path_of_isShortCode _ hcode2
      have hne : req2.Path ≠ "/" := by
        rw [hpath2]; exact isShortCode_ne_root _ hcode2
      refine ⟨hpath2 ▸ hvalid, ?_⟩
      have hascii : ∀ c ∈ (req.FormValue "url").data, c.toNat < 128 :=
        fun c hc => urlChar_ascii c (((matchString_url _).1 hurl).2.2 c hc)
      rw [handler_lookup env2 _ req2 hne hvalid, hfault2, hpath2, hgen, hsc]
      simp only [Conn.Set, Conn.Get, if_true]
      rw [redirect_of_hasScheme _ _ (hasScheme_storedValue _) (storedValue_ascii _ hascii)]
      rfl

/-- Witness of C8: `example.com` submitted with the draw 12, then `GET /eb308b51`. -/
theorem C8_round_trip_witness :
    MatchString NewUrlRepo.regexPath "/eb308b51" = true ∧
    (NewUrlRepo.HomepageHandler ⟨5, none, false⟩
      (NewUrlRepo.HomepageHandler ⟨12, none, false⟩ Store.empty
        ⟨"POST", "/", [("url", "example.com")]⟩).store ⟨"GET", "/eb308b51", []⟩).reply
      = .redirect "http://example.com" 301 :=
  C8_round_trip ⟨12, none, false⟩ ⟨5, none, false⟩ Store.empty ⟨"POST", "/", [("url", "example.com")]⟩
    ⟨"GET", "/eb308b51", []⟩ "/eb308b51" rfl rfl (by decide) (by decide) rfl rfl

/-- C9: after any finite sequence of requests from the empty store, every key
of the store is a slash followed by eight lowercase hexadecimal digits and
passes path validation, and every value starts with `http://` or `https://`. -/
theorem C9_store_invariant (reqs : List (Env × Request)) (k v : String)
    (h : run NewUrlRepo Store.empty reqs k = some v) :
    MatchString NewUrlRepo.regexPath k = true ∧ IsShortCode k ∧ SpecHasScheme v := by
  have hinv := run_invariant reqs Store.empty (fun k v h => Option.noConfusion h) k v h
  exact ⟨matchString_path_of_isShortCode k hinv.1, hinv.1, hinv.2⟩

set_option maxRecDepth 8000 in
/-- Witness of C9 on a run of three requests. -/
theorem C9_store_invariant_witness :
    MatchString NewUrlRepo.regexPath "/eb308b51" = true ∧ IsShortCode "/eb308b51" ∧
      SpecHasScheme "http://example.com" :=
  C9_store_invariant
    [(⟨12, none, false⟩, ⟨"POST", "/", [("url", "example.com")]⟩),
      (⟨0, none, false⟩, ⟨"GET", "/a", []⟩),
      (⟨77, some "connection refused", true⟩, ⟨"POST", "/", [("url", "https://go.dev")]⟩)]
    "/eb308b51" "http://example.com" (by decide)

/-- C10 fails as stated: after `abcde1` is submitted with the draw 2, the key
`/dfd1044e` holds `http://abcde1`; submitting `abcde` with the draw 12 checksums
the same bytes `abcde12` and rebinds that key to `http://abcde`. -/
theorem C10_counterexample :
    2 < MAX_RANDOM_NUMBER ∧ 12 < MAX_RANDOM_NUMBER ∧
    run NewUrlRepo Store.empty [(⟨2, none, false⟩, ⟨"POST", "/", [("url", "abcde1")]⟩)] "/dfd1044e"
      = some "http://abcde1" ∧
    (NewUrlRepo.HomepageHandler ⟨12, none, false⟩
      (run NewUrlRepo Store.empty [(⟨2, none, false⟩, ⟨"POST", "/", [("url", "abcde1")]⟩)])
      ⟨"POST", "/", [("url", "abcde")]⟩).store "/dfd1044e" = some "http://abcde" := by
  decide

/-- C10, amended: a request never removes a key. Every key bound before the
request is bound afterwards: to the value stored for the submitted URL when
the request is a submission of a valid URL whose generated shortcut is that
key and whose write reaches the database, and to its former value in every
other case, a colliding write that fails without landing included. -/
theorem C10_entries_persist (env : Env) (store : Store) (req : Request) (k v : String)
    (h : store k = some v) :
    (NewUrlRepo.HomepageHandler env store req).store k =
      some (if Overwrites env req k then storedValue (req.FormValue "url") else v) := by
  by_cases hpath : req.Path = "/"
  · by_cases hmeth : req.Method = "POST"
    · by_cases hurl : MatchString NewUrlRepo.regexUrl (req.FormValue "url") = true
      · rw [handler_post_valid env store req hpath hmeth hurl]
        by_cases hk : k = (NewUrlRepo.CreateNewShortcut env.rnd (req.FormValue "url")).1
        · cases hf : env.fault with
          | none =>
              have ho : Overwrites env req k := ⟨hpath, hmeth, hurl, Or.inl hf, hk⟩
              rw [if_pos ho]
              simp [Conn.Set, hk]
          | some e =>
              cases hl : env.landed with
              | true =>
                  have ho : Overwrites env req k := ⟨hpath, hmeth, hurl, Or.inr hl, hk⟩
                  rw [if_pos ho]
                  simp [Conn.Set, hk]
              | false =>
                  have ho : ¬ Overwrites env req k := by
                    rintro ⟨_, _, _, h4 | h4, _⟩
                    · rw [hf] at h4; cases h4
                    · rw [hl] at h4; cases h4
                  rw [if_neg ho]
                  simpa [Conn.Set] using h
        · have ho : ¬ Overwrites env req k := fun ho => hk ho.2.2.2.2
          rw [if_neg ho]
          cases hf : env.fault with
          | none => simpa [Conn.Set, hk] using h
          | some e =>
              cases hl : env.landed with
              | true => simpa [Conn.Set, hk] using h
              | false => simpa [Conn.Set] using h
      · have ho : ¬ Overwrites env req k := fun ho => hurl ho.2.2.1
        rw [if_neg ho, handler_post_invalid env store req hpath hmeth hurl]
        exact h
    · have ho : ¬ Overwrites env req k := fun ho => hmeth ho.2.1
      rw [if_neg ho, handler_root_other env store req hpath hmeth]
      exact h
  · have ho : ¬ Overwrites env req k := fun ho => hpath ho.1
    rw [if_neg ho]
    by_cases hvalid : MatchString NewUrlRepo.regexPath req.Path = true
    · rw [handler_lookup env store req hpath hvalid]
      cases Conn.Get env.fault store req.Path <;> exact h
    · rw [handler_badpath env store req hpath hvalid]
      exact h

set_option maxRecDepth 20000 in
/-- Witness of the amended C10 on the store that binds `/dfd1044e` to
`http://abcde1`: submitting `abcde` with the draw 12 rebinds the key to
`http://abcde` when the write succeeds, and leaves `http://abcde1` when the
write fails without landing. -/
theorem C10_entries_persist_witness :
    (NewUrlRepo.HomepageHandler ⟨12, none, false⟩
        (fun k => if k = "/dfd1044e" then some "http://abcde1" else none)
        ⟨"POST", "/", [("url", "abcde")]⟩).store "/dfd1044e" = some "http://abcde" ∧
    (NewUrlRepo.HomepageHandler ⟨12, some "i/o timeout", false⟩
        (fun k => if k = "/dfd1044e" then some "http://abcde1" else none)
        ⟨"POST", "/", [("url", "abcde")]⟩).store "/dfd1044e" = some "http://abcde1" :=
  ⟨(C10_entries_persist ⟨12, none, false⟩
      (fun k => if k = "/dfd1044e" then some "http://abcde1" else none)
      ⟨"POST", "/", [("url", "abcde")]⟩ "/dfd1044e" "http://abcde1" (by decide)).trans
      (by decide),
    (C10_entries_persist ⟨12, some "i/o timeout", false⟩
      (fun k => if k = "/dfd1044e" then some "http://abcde1" else none)
      ⟨"POST", "/", [("url", "abcde")]⟩ "/dfd1044e" "http://abcde1" (by decide)).trans
      (by decide)⟩

end UrlShortener
